import Mathlib

/-!
Shallow embedding of the dynasm-rs runtime core (`src/runtime/src/lib.rs`).

Bytes are modelled as natural numbers below 256, `usize` offsets as `Nat`,
signed deltas as `Int`.  Operations that can panic in Rust (slice indexing out
of range, `copy_from_slice` length mismatch, remainder by zero, the
`panic!` calls for unknown or duplicate labels) are modelled as `Option` /
`Option DynasmError × Assembler` results: `none` / `some e` marks the panic,
together with the state at the moment of the panic (Rust mutates `self` in
place, so mutations performed before a panic are visible in that state).
-/

namespace Dynasm

/-- Replace the bytes of `l` at positions `[start, start + repl.length)` by `repl`.
This models `slice[start .. start + repl.len()].copy_from_slice(&repl)`;
callers establish `start + repl.length ≤ l.length` separately (Rust panics
otherwise). -/
def listWriteSlice (l : List Nat) (start : Nat) (repl : List Nat) : List Nat :=
  l.take start ++ repl ++ l.drop (start + repl.length)

/-- Byte `i` of the `size`-byte two's-complement little-endian encoding of `v`
(the bytes produced by `(v as iN).to_le()` for `N = 8 * size`). -/
def leByte (size : Nat) (v : Int) (i : Nat) : Nat :=
  ((v.emod ((2 : Int) ^ (8 * size))).toNat / 2 ^ (8 * i)) % 2 ^ 8

/-- The `size`-byte two's-complement little-endian encoding of `v`, as a byte list. -/
def leBytes (size : Nat) (v : Int) : List Nat :=
  (List.range size).map (leByte size v)

/-- The value obtained by truncating `v` to `size` bytes and sign-extending the
result: the semantics of Rust's `v as iN` cast for `N = 8 * size`. -/
def sextTrunc (size : Nat) (v : Int) : Int :=
  let t := v.emod ((2 : Int) ^ (8 * size))
  if t < (2 : Int) ^ (8 * size - 1) then t else t - (2 : Int) ^ (8 * size)

/-- Association-list lookup, modelling `HashMap::get`. -/
def lookupA {α : Type} (m : List (String × α)) (k : String) : Option α :=
  match m with
  | [] => none
  | (k₂, v) :: rest => if k₂ = k then some v else lookupA rest k

/-- Association-list insert, modelling `HashMap::insert` (the old binding, if
any, is replaced). -/
def insertA {α : Type} (m : List (String × α)) (k : String) (v : α) : List (String × α) :=
  match m with
  | [] => [(k, v)]
  | (k₂, v₂) :: rest => if k₂ = k then (k, v) :: rest else (k₂, v₂) :: insertA rest k v

/-- Association-list removal, modelling `HashMap::remove`. -/
def removeA {α : Type} (m : List (String × α)) (k : String) : List (String × α) :=
  match m with
  | [] => []
  | (k₂, v₂) :: rest => if k₂ = k then rest else (k₂, v₂) :: removeA rest k

/-- `struct PatchLoc(usize, u8)`: `loc` is the end offset of the patch field,
`size` its width in bytes. -/
structure PatchLoc where
  loc : Nat
  size : Nat
deriving DecidableEq

/-- `struct ExecutableBuffer { length, buffer: Mmap }`: `buffer` is the full
anonymous mapping (its length is the mapping size), `length` the number of
bytes holding committed code. -/
structure ExecutableBuffer where
  length : Nat
  buffer : List Nat
deriving DecidableEq

/-- The committed code visible through `Deref for ExecutableBuffer`
(`&buffer.as_slice()[..length]`). -/
def ExecutableBuffer.contents (b : ExecutableBuffer) : List Nat :=
  b.buffer.take b.length

/-- The panics the runtime can raise. -/
inductive DynasmError where
  | duplicateGlobalLabel (name : String)
  | duplicateDynamicLabel (id : Nat)
  | unknownGlobalLabel (name : String)
  | unknownDynamicLabel (id : Nat)
  | unknownLocalLabel (name : String)
  | invalidPatch
  | sliceOutOfRange
  | remZero
deriving DecidableEq

/-- `struct Assembler`, field for field. `dynamic_labels` is indexed by the
label id; `local_relocs` maps a local label name to its queue of pending
patch locations. -/
structure Assembler where
  execbuffer : ExecutableBuffer
  map_len : Nat
  asmoffset : Nat
  ops : List Nat
  global_labels : List (String × Nat)
  global_relocs : List (PatchLoc × String)
  dynamic_labels : List (Option Nat)
  dynamic_relocs : List (PatchLoc × Nat)
  local_labels : List (String × Nat)
  local_relocs : List (String × List PatchLoc)
deriving DecidableEq

/-- `MMAP_INIT_SIZE` from `Assembler::new`. -/
def MMAP_INIT_SIZE : Nat := 1024 * 256

/-- `Assembler::new`: a fresh assembler over a zero-filled mapping of
`MMAP_INIT_SIZE` bytes. -/
def Assembler.new : Assembler :=
  { execbuffer := { length := 0, buffer := List.replicate MMAP_INIT_SIZE 0 }
    map_len := MMAP_INIT_SIZE
    asmoffset := 0
    ops := []
    global_labels := []
    global_relocs := []
    dynamic_labels := []
    dynamic_relocs := []
    local_labels := []
    local_relocs := [] }

/-- `DynasmApi::offset` for `Assembler`: `ops.len() + asmoffset`. -/
def Assembler.offset (a : Assembler) : Nat :=
  a.ops.length + a.asmoffset

/-- `Assembler::push`: append one byte to the scratch buffer. -/
def Assembler.push (a : Assembler) (byte : Nat) : Assembler :=
  { a with ops := a.ops ++ [byte] }

/-- `Extend<u8> for Assembler`: append a byte sequence to the scratch buffer. -/
def Assembler.extend (a : Assembler) (bytes : List Nat) : Assembler :=
  { a with ops := a.ops ++ bytes }

/-- `Assembler::align`: `offset() % alignment` panics when `alignment = 0`
(usize remainder by zero); otherwise push `0x90` bytes until the offset is a
multiple of `alignment`. -/
def Assembler.align (a : Assembler) (alignment : Nat) : Option Assembler :=
  if alignment = 0 then none
  else
    let off := a.offset % alignment
    if off ≠ 0 then some { a with ops := a.ops ++ List.replicate (alignment - off) 0x90 }
    else some a

/-- `Assembler::patch_loc`.  The Rust code slices
`ops[buf_loc - size .. buf_loc]` with `buf_loc = loc.0 - asmoffset` and writes
the little-endian truncation of `target - loc.0`; any out-of-range slice
index, as well as a size outside {1,2,4,8}, is a panic (`none`). -/
def Assembler.patch_loc (a : Assembler) (loc : PatchLoc) (target : Nat) : Option Assembler :=
  if (loc.size = 1 ∨ loc.size = 2 ∨ loc.size = 4 ∨ loc.size = 8) ∧
      a.asmoffset + loc.size ≤ loc.loc ∧ loc.loc ≤ a.asmoffset + a.ops.length then
    some { a with
      ops := listWriteSlice a.ops (loc.loc - a.asmoffset - loc.size)
        (leBytes loc.size ((target : Int) - (loc.loc : Int))) }
  else none

/-- `Assembler::global_label`: insert the current offset, then panic if the
name was already bound (`HashMap::insert` returned the old value). -/
def Assembler.global_label (a : Assembler) (name : String) : Option DynasmError × Assembler :=
  let offset := a.offset
  let old := lookupA a.global_labels name
  let a₂ := { a with global_labels := insertA a.global_labels name offset }
  match old with
  | some _ => (some (DynasmError.duplicateGlobalLabel name), a₂)
  | none => (none, a₂)

/-- `Assembler::global_reloc`: queue a patch location ending at the current
offset under `name`. -/
def Assembler.global_reloc (a : Assembler) (name : String) (size : Nat) : Assembler :=
  { a with global_relocs := a.global_relocs ++ [(⟨a.offset, size⟩, name)] }

/-- `Assembler::new_dynamic_label`: allocate the next dynamic label id. -/
def Assembler.new_dynamic_label (a : Assembler) : Nat × Assembler :=
  (a.dynamic_labels.length, { a with dynamic_labels := a.dynamic_labels ++ [none] })

/-- `Assembler::dynamic_label`: define a dynamic label at the current offset;
panics on an unallocated id (index out of range) or a doubly defined id. -/
def Assembler.dynamic_label (a : Assembler) (id : Nat) : Option DynasmError × Assembler :=
  match a.dynamic_labels[id]? with
  | none => (some DynasmError.sliceOutOfRange, a)
  | some (some _) => (some (DynasmError.duplicateDynamicLabel id), a)
  | some none => (none, { a with dynamic_labels := a.dynamic_labels.set id (some a.offset) })

/-- `Assembler::dynamic_reloc`: queue a patch location ending at the current
offset under the dynamic label id. -/
def Assembler.dynamic_reloc (a : Assembler) (id : Nat) (size : Nat) : Assembler :=
  { a with dynamic_relocs := a.dynamic_relocs ++ [(⟨a.offset, size⟩, id)] }

/-- Patch every queued location against `target`, in queue order, stopping at
the state of the first panic (helper for `local_label`). -/
def patchAll (locs : List PatchLoc) (target : Nat) (a : Assembler) :
    Option DynasmError × Assembler :=
  match locs with
  | [] => (none, a)
  | loc :: rest =>
    match a.patch_loc loc target with
    | some a₂ => patchAll rest target a₂
    | none => (some DynasmError.invalidPatch, a)

/-- `Assembler::local_label`: drain the forward queue for `name`, patching
each queued location against the current offset, then record the offset as
the most recent definition of `name`. -/
def Assembler.local_label (a : Assembler) (name : String) : Option DynasmError × Assembler :=
  let offset := a.offset
  match lookupA a.local_relocs name with
  | some relocs =>
    let a₁ := { a with local_relocs := removeA a.local_relocs name }
    match patchAll relocs offset a₁ with
    | (some e, a₂) => (some e, a₂)
    | (none, a₂) => (none, { a₂ with local_labels := insertA a₂.local_labels name offset })
  | none => (none, { a with local_labels := insertA a.local_labels name offset })

/-- `Assembler::forward_reloc`: queue a patch location ending at the current
offset under `name`, awaiting the next definition of that local label. -/
def Assembler.forward_reloc (a : Assembler) (name : String) (size : Nat) : Assembler :=
  match lookupA a.local_relocs name with
  | some locs => { a with local_relocs := insertA a.local_relocs name (locs ++ [⟨a.offset, size⟩]) }
  | none => { a with local_relocs := insertA a.local_relocs name [⟨a.offset, size⟩] }

/-- `Assembler::backward_reloc`: patch immediately against the most recent
definition of `name`; panics when there is none. -/
def Assembler.backward_reloc (a : Assembler) (name : String) (size : Nat) :
    Option DynasmError × Assembler :=
  match lookupA a.local_labels name with
  | some target =>
    match a.patch_loc ⟨a.offset, size⟩ target with
    | some a₂ => (none, a₂)
    | none => (some DynasmError.invalidPatch, a)
  | none => (some (DynasmError.unknownLocalLabel name), a)

/-- Resolve a drained global relocation queue against the label table
(helper for `encode_relocs`); the queue was swapped out of the assembler
before iteration. -/
def processGlobalRelocs (relocs : List (PatchLoc × String)) (a : Assembler) :
    Option DynasmError × Assembler :=
  match relocs with
  | [] => (none, a)
  | (loc, name) :: rest =>
    match lookupA a.global_labels name with
    | some target =>
      match a.patch_loc loc target with
      | some a₂ => processGlobalRelocs rest a₂
      | none => (some DynasmError.invalidPatch, a)
    | none => (some (DynasmError.unknownGlobalLabel name), a)

/-- Resolve a drained dynamic relocation queue against the label table
(helper for `encode_relocs`). -/
def processDynamicRelocs (relocs : List (PatchLoc × Nat)) (a : Assembler) :
    Option DynasmError × Assembler :=
  match relocs with
  | [] => (none, a)
  | (loc, id) :: rest =>
    match a.dynamic_labels[id]? with
    | some (some target) =>
      match a.patch_loc loc target with
      | some a₂ => processDynamicRelocs rest a₂
      | none => (some DynasmError.invalidPatch, a)
    | _ => (some (DynasmError.unknownDynamicLabel id), a)

/-- `Assembler::encode_relocs`: `mem::swap` the global queue out and resolve
it, then likewise for the dynamic queue, then panic if any local forward
queue is still pending. -/
def Assembler.encode_relocs (a : Assembler) : Option DynasmError × Assembler :=
  match processGlobalRelocs a.global_relocs { a with global_relocs := [] } with
  | (some e, a₂) => (some e, a₂)
  | (none, a₁) =>
    match processDynamicRelocs a₁.dynamic_relocs { a₁ with dynamic_relocs := [] } with
    | (some e, a₂) => (some e, a₂)
    | (none, a₂) =>
      match a₂.local_relocs with
      | [] => (none, a₂)
      | (name, _) :: _ => (some (DynasmError.unknownLocalLabel name), a₂)

/-- `Assembler::commit`.  `buf_start = asmoffset`, `buf_end = offset()`;
return immediately when they coincide, otherwise resolve relocations and
either grow into a fresh mapping of size `max(buf_end, map_len * 2)`
(copying `[0, buf_start)` from the old mapping and the scratch bytes after
it) or copy the scratch bytes in place and update `length`.  The
`copy_from_slice` bound/length requirements are the panic conditions. -/
def Assembler.commit (a : Assembler) : Option DynasmError × Assembler :=
  let buf_start := a.asmoffset
  let buf_end := a.ops.length + a.asmoffset
  if buf_start = buf_end then (none, a)
  else
    match a.encode_relocs with
    | (some e, a₂) => (some e, a₂)
    | (none, a₁) =>
      if buf_end > a₁.map_len then
        let new_len := max buf_end (a₁.map_len * 2)
        if buf_start ≤ a₁.execbuffer.buffer.length ∧ a₁.ops.length = buf_end - buf_start then
          let new_buf := listWriteSlice
            (listWriteSlice (List.replicate new_len 0) 0 (a₁.execbuffer.buffer.take buf_start))
            buf_start a₁.ops
          (none, { a₁ with
            execbuffer := { length := buf_end, buffer := new_buf }
            map_len := new_len
            ops := []
            asmoffset := buf_end })
        else (some DynasmError.sliceOutOfRange, a₁)
      else
        if buf_end ≤ a₁.execbuffer.buffer.length ∧ a₁.ops.length = buf_end - buf_start then
          let eb := a₁.execbuffer
          let new_length := if buf_end > eb.length then buf_end else eb.length
          (none, { a₁ with
            execbuffer := { length := new_length
                            buffer := listWriteSlice eb.buffer buf_start a₁.ops }
            ops := []
            asmoffset := buf_end })
        else (some DynasmError.sliceOutOfRange, a₁)

/-- `struct AssemblyModifier { assembler, buffer }`.  In the Rust code
`buffer` is the locked `ExecutableBuffer` of the assembler itself; here it is
carried separately for the duration of the `alter` callback. -/
structure AssemblyModifier where
  assembler : Assembler
  buffer : ExecutableBuffer
deriving DecidableEq

/-- `AssemblyModifier::offset` delegates to the assembler. -/
def AssemblyModifier.offset (m : AssemblyModifier) : Nat :=
  m.assembler.offset

/-- `AssemblyModifier::goto`: set `asmoffset`. -/
def AssemblyModifier.goto (m : AssemblyModifier) (offset : Nat) : AssemblyModifier :=
  { m with assembler := { m.assembler with asmoffset := offset } }

/-- `AssemblyModifier::push`: write one byte through
`ExecutableBuffer::as_mut_slice` (the mapping restricted to `length`) at
`asmoffset` and advance `asmoffset`; out-of-range indexing is a panic. -/
def AssemblyModifier.push (m : AssemblyModifier) (value : Nat) : Option AssemblyModifier :=
  if m.buffer.length ≤ m.buffer.buffer.length ∧ m.assembler.asmoffset < m.buffer.length then
    some { m with
      buffer := { m.buffer with buffer := m.buffer.buffer.set m.assembler.asmoffset value }
      assembler := { m.assembler with asmoffset := m.assembler.asmoffset + 1 } }
  else none

/-- `Extend<u8> for AssemblyModifier`: repeated `push`. -/
def AssemblyModifier.extend (m : AssemblyModifier) (bytes : List Nat) : Option AssemblyModifier :=
  match bytes with
  | [] => some m
  | b :: rest =>
    match m.push b with
    | some m₂ => m₂.extend rest
    | none => none

/-- `AssemblyModifier::align` delegates to `Assembler::align` (which pushes
its padding bytes into the assembler scratch buffer `ops`). -/
def AssemblyModifier.align (m : AssemblyModifier) (alignment : Nat) : Option AssemblyModifier :=
  match m.assembler.align alignment with
  | some a₂ => some { m with assembler := a₂ }
  | none => none

/-- `AssemblyModifier::patch_loc`: write the little-endian truncation of
`target - loc.0` at `[loc.0 - size, loc.0)` of the mapping restricted to
`length`; out-of-range slicing or an invalid size is a panic. -/
def AssemblyModifier.patch_loc (m : AssemblyModifier) (loc : PatchLoc) (target : Nat) :
    Option AssemblyModifier :=
  if (loc.size = 1 ∨ loc.size = 2 ∨ loc.size = 4 ∨ loc.size = 8) ∧
      loc.size ≤ loc.loc ∧ loc.loc ≤ m.buffer.length ∧
      m.buffer.length ≤ m.buffer.buffer.length then
    some { m with
      buffer := { m.buffer with
        buffer := listWriteSlice m.buffer.buffer (loc.loc - loc.size)
          (leBytes loc.size ((target : Int) - (loc.loc : Int))) } }
  else none

/-- The fields of the assembler that relocation resolution never touches
(`ops` may be patched in place, so only its length is recorded). -/
def PreservesFrame (a a₂ : Assembler) : Prop :=
  a₂.execbuffer = a.execbuffer ∧ a₂.map_len = a.map_len ∧ a₂.asmoffset = a.asmoffset ∧
  a₂.ops.length = a.ops.length ∧ a₂.global_labels = a.global_labels ∧
  a₂.dynamic_labels = a.dynamic_labels ∧
  a₂.local_labels = a.local_labels ∧ a₂.local_relocs = a.local_relocs

/-- A small concrete assembler for witnesses: two committed bytes, one staged
byte. -/
def exampleA : Assembler :=
  { execbuffer := { length := 2, buffer := [7, 7, 0, 0] }
    map_len := 4
    asmoffset := 2
    ops := [5]
    global_labels := []
    global_relocs := []
    dynamic_labels := []
    dynamic_relocs := []
    local_labels := []
    local_relocs := [] }

/-- A concrete assembler whose staged bytes overflow the mapping, forcing the
growth path of `commit`. -/
def exampleGrow : Assembler :=
  { exampleA with ops := [9, 9, 9] }

/-- A concrete assembler with a three-byte scratch region starting at offset
zero, used to exercise `patch_loc`. -/
def examplePatch : Assembler :=
  { exampleA with
    asmoffset := 0
    execbuffer := { length := 0, buffer := [] }
    map_len := 0
    ops := [0, 0, 0] }

/-- A concrete assembler carrying a global relocation whose label name has no
definition, so relocation resolution fails. -/
def exampleBadReloc : Assembler :=
  { exampleA with
    asmoffset := 0
    ops := [1, 2, 3, 4, 5]
    execbuffer := { length := 0, buffer := [0, 0, 0, 0, 0, 0, 0, 0] }
    map_len := 8
    global_relocs := [(⟨4, 4⟩, "g")] }

/-- The spec's "Forward jump" scenario exactly as written: push `0xEB`,
`forward_reloc("l", 1)`, push `0x90` three times, `local_label("l")`,
`commit`. -/
def forwardJumpLiteral : Option DynasmError × Assembler :=
  let a := ((((Assembler.new.push 0xEB).forward_reloc "l" 1).push 0x90).push 0x90).push 0x90
  match a.local_label "l" with
  | (some e, a₂) => (some e, a₂)
  | (none, a₂) => a₂.commit

/-- The forward-jump scenario with the one-byte immediate field actually
emitted: a placeholder byte is pushed before `forward_reloc`, so the patch
field lies after the opcode. -/
def forwardJumpAmended : Option DynasmError × Assembler :=
  let a := (((((Assembler.new.push 0xEB).push 0x00).forward_reloc "l" 1).push 0x90).push 0x90).push 0x90
  match a.local_label "l" with
  | (some e, a₂) => (some e, a₂)
  | (none, a₂) => a₂.commit

/-- The assembler state reached by the literal forward-jump sequence just
before its final `commit`: the patch at `PatchLoc (1, 1)` has overwritten the
opcode byte. -/
def forwardJumpPre : Assembler :=
  { Assembler.new with ops := [0x03, 0x90, 0x90, 0x90], local_labels := [("l", 4)] }

/-- The assembler state reached by the amended forward-jump sequence just
before its final `commit`. -/
def forwardJumpAmendedPre : Assembler :=
  { Assembler.new with ops := [0xEB, 0x03, 0x90, 0x90, 0x90], local_labels := [("l", 5)] }

/-- A concrete modifier positioned at offset 1 over a four-byte committed
buffer, with an empty scratch buffer (as inside `alter`, which commits
first). -/
def exampleMod : AssemblyModifier :=
  { assembler := { exampleA with
      asmoffset := 1
      ops := []
      execbuffer := { length := 4, buffer := [1, 2, 3, 4] } }
    buffer := { length := 4, buffer := [1, 2, 3, 4] } }

theorem leBytes_length (size : Nat) (v : Int) : (leBytes size v).length = size := by
  simp [leBytes]

theorem length_listWriteSlice {l repl : List Nat} {start : Nat}
    (h : start + repl.length ≤ l.length) :
    (listWriteSlice l start repl).length = l.length := by
  simp only [listWriteSlice, List.length_append, List.length_take, List.length_drop]
  omega

theorem getElem?_listWriteSlice_lt {l repl : List Nat} {start j : Nat}
    (hj : j < start) (hs : start ≤ l.length) :
    (listWriteSlice l start repl)[j]? = l[j]? := by
  have h1 : j < (l.take start).length := by
    simp only [List.length_take]; omega
  simp only [listWriteSlice, List.append_assoc, List.getElem?_append, h1, if_pos]
  exact List.getElem?_take_of_lt hj

theorem getElem?_listWriteSlice_mid {l repl : List Nat} {start i : Nat}
    (hi : i < repl.length) (hs : start + repl.length ≤ l.length) :
    (listWriteSlice l start repl)[start + i]? = repl[i]? := by
  have htl : (l.take start).length = start := by
    simp only [List.length_take]; omega
  rw [listWriteSlice, List.append_assoc, List.getElem?_append_right (by omega), htl]
  have h2 : start + i - start = i := by omega
  rw [h2]
  simp [List.getElem?_append, hi]

theorem getElem?_listWriteSlice_ge {l repl : List Nat} {start j : Nat}
    (hj : start + repl.length ≤ j) (hs : start + repl.length ≤ l.length) :
    (listWriteSlice l start repl)[j]? = l[j]? := by
  have htl : (l.take start).length = start := by
    simp only [List.length_take]; omega
  rw [listWriteSlice, List.append_assoc, List.getElem?_append_right (by omega), htl]
  rw [List.getElem?_append_right (by omega)]
  rw [List.getElem?_drop]
  congr 1
  omega

theorem drop_take_listWriteSlice {l repl : List Nat} {start : Nat}
    (hs : start + repl.length ≤ l.length) :
    ((listWriteSlice l start repl).drop start).take repl.length = repl := by
  have htl : (l.take start).length = start := by
    simp only [List.length_take]; omega
  rw [listWriteSlice, List.append_assoc, List.drop_left' htl, List.take_left' rfl]

theorem patch_loc_eq_some (a : Assembler) (loc : PatchLoc) (target : Nat)
    (hsz : loc.size = 1 ∨ loc.size = 2 ∨ loc.size = 4 ∨ loc.size = 8)
    (h₁ : a.asmoffset + loc.size ≤ loc.loc)
    (h₂ : loc.loc ≤ a.asmoffset + a.ops.length) :
    a.patch_loc loc target =
      some { a with ops := listWriteSlice a.ops (loc.loc - a.asmoffset - loc.size)
                      (leBytes loc.size ((target : Int) - (loc.loc : Int))) } := by
  unfold Assembler.patch_loc
  rw [if_pos ⟨hsz, h₁, h₂⟩]

theorem patch_loc_pres {a a₂ : Assembler} {loc : PatchLoc} {target : Nat}
    (h : a.patch_loc loc target = some a₂) :
    PreservesFrame a a₂ ∧ a₂.global_relocs = a.global_relocs ∧
      a₂.dynamic_relocs = a.dynamic_relocs := by
  unfold Assembler.patch_loc at h
  split at h
  case isTrue hc =>
    obtain ⟨hsz, h₁, h₂⟩ := hc
    injection h with h
    subst h
    refine ⟨⟨rfl, rfl, rfl, ?_, rfl, rfl, rfl, rfl⟩, rfl, rfl⟩
    apply length_listWriteSlice
    rw [leBytes_length]
    omega
  case isFalse => cases h

theorem preservesFrame_trans {a b c : Assembler}
    (h₁ : PreservesFrame a b) (h₂ : PreservesFrame b c) : PreservesFrame a c := by
  obtain ⟨e₁, m₁, o₁, l₁, g₁, d₁, ll₁, lr₁⟩ := h₁
  obtain ⟨e₂, m₂, o₂, l₂, g₂, d₂, ll₂, lr₂⟩ := h₂
  exact ⟨e₂.trans e₁, m₂.trans m₁, o₂.trans o₁, l₂.trans l₁, g₂.trans g₁,
    d₂.trans d₁, ll₂.trans ll₁, lr₂.trans lr₁⟩

theorem processGlobalRelocs_pres :
    ∀ (relocs : List (PatchLoc × String)) (a : Assembler) (e : Option DynasmError)
      (a₂ : Assembler), processGlobalRelocs relocs a = (e, a₂) →
      PreservesFrame a a₂ ∧ a₂.global_relocs = a.global_relocs ∧
        a₂.dynamic_relocs = a.dynamic_relocs := by
  intro relocs
  induction relocs with
  | nil =>
    intro a e a₂ h
    unfold processGlobalRelocs at h
    injection h with h₁ h₂
    subst h₂
    exact ⟨⟨rfl, rfl, rfl, rfl, rfl, rfl, rfl, rfl⟩, rfl, rfl⟩
  | cons hd tl ih =>
    intro a e a₂ h
    unfold processGlobalRelocs at h
    split at h
    · split at h
      · have hp := patch_loc_pres (by assumption)
        have hrest := ih _ _ _ h
        exact ⟨preservesFrame_trans hp.1 hrest.1,
          hrest.2.1.trans hp.2.1, hrest.2.2.trans hp.2.2⟩
      · injection h with h₁ h₂
        subst h₂
        exact ⟨⟨rfl, rfl, rfl, rfl, rfl, rfl, rfl, rfl⟩, rfl, rfl⟩
    · injection h with h₁ h₂
      subst h₂
      exact ⟨⟨rfl, rfl, rfl, rfl, rfl, rfl, rfl, rfl⟩, rfl, rfl⟩

theorem processDynamicRelocs_pres :
    ∀ (relocs : List (PatchLoc × Nat)) (a : Assembler) (e : Option DynasmError)
      (a₂ : Assembler), processDynamicRelocs relocs a = (e, a₂) →
      PreservesFrame a a₂ ∧ a₂.global_relocs = a.global_relocs ∧
        a₂.dynamic_relocs = a.dynamic_relocs := by
  intro relocs
  induction relocs with
  | nil =>
    intro a e a₂ h
    unfold processDynamicRelocs at h
    injection h with h₁ h₂
    subst h₂
    exact ⟨⟨rfl, rfl, rfl, rfl, rfl, rfl, rfl, rfl⟩, rfl, rfl⟩
  | cons hd tl ih =>
    intro a e a₂ h
    unfold processDynamicRelocs at h
    split at h
    · split at h
      · have hp := patch_loc_pres (by assumption)
        have hrest := ih _ _ _ h
        exact ⟨preservesFrame_trans hp.1 hrest.1,
          hrest.2.1.trans hp.2.1, hrest.2.2.trans hp.2.2⟩
      · injection h with h₁ h₂
        subst h₂
        exact ⟨⟨rfl, rfl, rfl, rfl, rfl, rfl, rfl, rfl⟩, rfl, rfl⟩
    · injection h with h₁ h₂
      subst h₂
      exact ⟨⟨rfl, rfl, rfl, rfl, rfl, rfl, rfl, rfl⟩, rfl, rfl⟩

theorem encode_relocs_pres {a : Assembler} {e : Option DynasmError} {a₂ : Assembler}
    (h : a.encode_relocs = (e, a₂)) : PreservesFrame a a₂ := by
  unfold Assembler.encode_relocs at h
  have hframe0 : PreservesFrame a { a with global_relocs := [] } :=
    ⟨rfl, rfl, rfl, rfl, rfl, rfl, rfl, rfl⟩
  split at h
  case h_1 e₁ b heq =>
    injection h with h₁ h₂
    subst h₂
    exact preservesFrame_trans hframe0 (processGlobalRelocs_pres _ _ _ _ heq).1
  case h_2 a₁ heq =>
    have hg := preservesFrame_trans hframe0 (processGlobalRelocs_pres _ _ _ _ heq).1
    have hframe1 : PreservesFrame a₁ { a₁ with dynamic_relocs := [] } :=
      ⟨rfl, rfl, rfl, rfl, rfl, rfl, rfl, rfl⟩
    split at h
    case h_1 e₂ b heq₂ =>
      injection h with h₁ h₂
      subst h₂
      exact preservesFrame_trans hg
        (preservesFrame_trans hframe1 (processDynamicRelocs_pres _ _ _ _ heq₂).1)
    case h_2 a₃ heq₂ =>
      have hd := preservesFrame_trans hframe1 (processDynamicRelocs_pres _ _ _ _ heq₂).1
      split at h <;>
      · injection h with h₁ h₂
        subst h₂
        exact preservesFrame_trans hg hd

theorem lookupA_insertA_self {α : Type} (m : List (String × α)) (k : String) (v : α) :
    lookupA (insertA m k v) k = some v := by
  induction m with
  | nil => simp [insertA, lookupA]
  | cons hd tl ih =>
    obtain ⟨k₂, v₂⟩ := hd
    by_cases hk : k₂ = k
    · subst hk
      simp [insertA, lookupA]
    · simp [insertA, lookupA, hk, ih]

theorem commit_success_ops_nil {a a₂ : Assembler} (h : a.commit = (none, a₂)) :
    a₂.ops = [] := by
  simp only [Assembler.commit] at h
  split at h
  case isTrue hc =>
    injection h with h₁ h₂
    subst h₂
    have hlen : a.ops.length = 0 := by omega
    exact List.eq_nil_of_length_eq_zero hlen
  case isFalse hc =>
    split at h
    case h_1 => injection h with h₁ h₂; exact absurd h₁ (by simp)
    case h_2 a₁ heq =>
      split at h
      · split at h
        · injection h with h₁ h₂; subst h₂; rfl
        · injection h with h₁ h₂; exact absurd h₁ (by simp)
      · split at h
        · injection h with h₁ h₂; subst h₂; rfl
        · injection h with h₁ h₂; exact absurd h₁ (by simp)

/-- Claim C2: outside an alter callback, after every `commit()` that returns,
the scratch buffer `ops` is empty and `asmoffset` equals the executable
buffer's `length`; the invariant holds in the initial state
(`Assembler::new`) and is preserved by every commit (the hypothesis
`asmoffset = length` is this very invariant, which emission operations do not
disturb). -/
theorem commit_leaves_scratch_empty :
    (Assembler.new.ops = [] ∧ Assembler.new.asmoffset = Assembler.new.execbuffer.length) ∧
    ∀ a a₂ : Assembler, a.asmoffset = a.execbuffer.length →
      a.commit = (none, a₂) →
      a₂.ops = [] ∧ a₂.asmoffset = a₂.execbuffer.length := by
  constructor
  · exact ⟨rfl, rfl⟩
  intro a a₂ hinv h
  refine ⟨commit_success_ops_nil h, ?_⟩
  simp only [Assembler.commit] at h
  split at h
  case isTrue hc =>
    injection h with h₁ h₂
    subst h₂
    exact hinv
  case isFalse hc =>
    split at h
    case h_1 => injection h with h₁ h₂; exact absurd h₁ (by simp)
    case h_2 a₁ heq =>
      obtain ⟨heb, hml, hao, hol, _, _, _, _⟩ := encode_relocs_pres heq
      split at h
      · split at h
        · injection h with h₁ h₂
          subst h₂
          rfl
        · injection h with h₁ h₂; exact absurd h₁ (by simp)
      · split at h
        · injection h with h₁ h₂
          subst h₂
          show a.ops.length + a.asmoffset = _
          rw [heb]
          split
          · rfl
          · omega
        · injection h with h₁ h₂; exact absurd h₁ (by simp)

/-- Witness for C2 at a concrete assembler with one staged byte. -/
theorem commit_leaves_scratch_empty_witness :
    exampleA.asmoffset = exampleA.execbuffer.length ∧
    exampleA.commit = (none, { exampleA with
      execbuffer := { length := 3, buffer := [7, 7, 5, 0] }
      ops := []
      asmoffset := 3 }) ∧
    (({ exampleA with
      execbuffer := { length := 3, buffer := [7, 7, 5, 0] }
      ops := []
      asmoffset := 3 } : Assembler).ops = [] ∧
     ({ exampleA with
      execbuffer := { length := 3, buffer := [7, 7, 5, 0] }
      ops := []
      asmoffset := 3 } : Assembler).asmoffset =
     ({ exampleA with
      execbuffer := { length := 3, buffer := [7, 7, 5, 0] }
      ops := []
      asmoffset := 3 } : Assembler).execbuffer.length) :=
  ⟨by decide, by decide,
    commit_leaves_scratch_empty.2 exampleA _ (by decide) (by decide)⟩

/-- Claim C6: a commit with `buf_start = buf_end` (empty scratch buffer)
returns immediately leaving the whole assembler unchanged, and any successful
commit leaves a state from which a second commit is exactly that no-op, so
`commit(); commit()` equals a single `commit()`. -/
theorem commit_idempotent :
    (∀ a : Assembler, a.ops = [] → a.commit = (none, a)) ∧
    (∀ a a₂ : Assembler, a.commit = (none, a₂) → a₂.commit = (none, a₂)) := by
  have hnoop : ∀ a : Assembler, a.ops = [] → a.commit = (none, a) := by
    intro a h
    simp only [Assembler.commit]
    rw [if_pos (by rw [h]; simp)]
  exact ⟨hnoop, fun a a₂ h => hnoop a₂ (commit_success_ops_nil h)⟩

/-- Witness for C6: the no-op case at a drained assembler, and the
commit-then-commit case at a concrete assembler with one staged byte. -/
theorem commit_idempotent_witness :
    (({ exampleA with ops := [] } : Assembler).ops = [] ∧
     ({ exampleA with ops := [] } : Assembler).commit =
       (none, { exampleA with ops := [] })) ∧
    (exampleA.commit = (none, { exampleA with
        execbuffer := { length := 3, buffer := [7, 7, 5, 0] }
        ops := []
        asmoffset := 3 }) ∧
     ({ exampleA with
        execbuffer := { length := 3, buffer := [7, 7, 5, 0] }
        ops := []
        asmoffset := 3 } : Assembler).commit = (none, { exampleA with
        execbuffer := { length := 3, buffer := [7, 7, 5, 0] }
        ops := []
        asmoffset := 3 })) :=
  ⟨⟨rfl, commit_idempotent.1 _ rfl⟩,
   ⟨by decide, commit_idempotent.2 exampleA _ (by decide)⟩⟩

/-- Claim C9: defining a global label under a fresh name succeeds and records
the current offset; a second definition under the same name fails fatally
with the duplicate-global-label diagnostic. -/
theorem global_label_first_records_second_fails
    (a : Assembler) (name : String) (h : lookupA a.global_labels name = none) :
    (a.global_label name).1 = none ∧
    lookupA (a.global_label name).2.global_labels name = some a.offset ∧
    ((a.global_label name).2.global_label name).1 =
      some (DynasmError.duplicateGlobalLabel name) := by
  unfold Assembler.global_label
  rw [h]
  refine ⟨rfl, ?_, ?_⟩
  · exact lookupA_insertA_self a.global_labels name a.offset
  · rw [lookupA_insertA_self a.global_labels name a.offset]

/-- Witness for C9 at a concrete assembler with no global labels. -/
theorem global_label_first_records_second_fails_witness :
    lookupA exampleA.global_labels "x" = none ∧
    ((exampleA.global_label "x").1 = none ∧
     lookupA (exampleA.global_label "x").2.global_labels "x" = some exampleA.offset ∧
     ((exampleA.global_label "x").2.global_label "x").1 =
       some (DynasmError.duplicateGlobalLabel "x")) :=
  ⟨by decide, global_label_first_records_second_fails exampleA "x" (by decide)⟩

/-- Claim C10: `align(0)` computes `offset() % 0`, a usize remainder by zero,
and therefore panics on every assembler and on every modifier state (the
modifier delegates to the assembler's `align`), rather than acting as a
no-op. -/
theorem align_zero_panics :
    (∀ a : Assembler, a.align 0 = none) ∧
    (∀ m : AssemblyModifier, m.align 0 = none) := by
  constructor
  · intro a
    simp [Assembler.align]
  · intro m
    simp [AssemblyModifier.align, Assembler.align]

theorem getElem?_leBytes {size i : Nat} (v : Int) (hi : i < size) :
    (leBytes size v)[i]? = some (leByte size v i) := by
  simp [leBytes, List.getElem?_range, hi]

theorem drop_take_listWriteSlice_len {l repl : List Nat} {start n : Nat}
    (hn : repl.length = n) (hs : start + repl.length ≤ l.length) :
    ((listWriteSlice l start repl).drop start).take n = repl := by
  subst hn
  exact drop_take_listWriteSlice hs

theorem leBytes_sextTrunc (size : Nat) (v : Int) :
    leBytes size (sextTrunc size v) = leBytes size v := by
  have hmod : (sextTrunc size v).emod ((2 : Int) ^ (8 * size)) =
      v.emod ((2 : Int) ^ (8 * size)) := by
    unfold sextTrunc
    simp only []
    split
    · exact Int.emod_emod_of_dvd v dvd_rfl
    · show (v % (2 ^ (8 * size)) - 2 ^ (8 * size)) % (2 ^ (8 * size)) =
        v % (2 ^ (8 * size))
      rw [Int.sub_emod, Int.emod_emod_of_dvd v dvd_rfl, Int.emod_self, sub_zero]
      exact Int.emod_emod_of_dvd v dvd_rfl
  simp [leBytes, leByte, hmod]

/-- Claim C1: resolving a relocation with `PatchLoc (end, size)`,
`size ∈ {1,2,4,8}`, against a target `T` overwrites exactly the bytes
`[end-size, end)` of the assembled code with the `size`-byte two's-complement
little-endian encoding of `T - end` and leaves every other byte unchanged;
stated both for the assembler resolver (patching the scratch buffer, whose
byte `j` sits at logical offset `asmoffset + j`) and for the modifier
resolver (patching the executable mapping in place). -/
theorem patch_resolution_writes_exact_field :
    (∀ (a : Assembler) (loc : PatchLoc) (target : Nat),
      (loc.size = 1 ∨ loc.size = 2 ∨ loc.size = 4 ∨ loc.size = 8) →
      a.asmoffset + loc.size ≤ loc.loc →
      loc.loc ≤ a.asmoffset + a.ops.length →
      ∃ a₂, a.patch_loc loc target = some a₂ ∧
        a₂.execbuffer = a.execbuffer ∧ a₂.asmoffset = a.asmoffset ∧
        a₂.ops.length = a.ops.length ∧
        (∀ i, i < loc.size →
          a₂.ops[loc.loc - a.asmoffset - loc.size + i]? =
            some (leByte loc.size ((target : Int) - (loc.loc : Int)) i)) ∧
        (∀ j, a.asmoffset + j + loc.size < loc.loc ∨ loc.loc ≤ a.asmoffset + j →
          a₂.ops[j]? = a.ops[j]?)) ∧
    (∀ (m : AssemblyModifier) (loc : PatchLoc) (target : Nat),
      (loc.size = 1 ∨ loc.size = 2 ∨ loc.size = 4 ∨ loc.size = 8) →
      loc.size ≤ loc.loc →
      loc.loc ≤ m.buffer.length →
      m.buffer.length ≤ m.buffer.buffer.length →
      ∃ m₂, m.patch_loc loc target = some m₂ ∧
        m₂.assembler = m.assembler ∧ m₂.buffer.length = m.buffer.length ∧
        m₂.buffer.buffer.length = m.buffer.buffer.length ∧
        (∀ i, i < loc.size →
          m₂.buffer.buffer[loc.loc - loc.size + i]? =
            some (leByte loc.size ((target : Int) - (loc.loc : Int)) i)) ∧
        (∀ j, j + loc.size < loc.loc ∨ loc.loc ≤ j →
          m₂.buffer.buffer[j]? = m.buffer.buffer[j]?)) := by
  constructor
  · intro a loc target hsz h₁ h₂
    have hrl : (leBytes loc.size ((target : Int) - (loc.loc : Int))).length = loc.size :=
      leBytes_length _ _
    have hbound : (loc.loc - a.asmoffset - loc.size) +
        (leBytes loc.size ((target : Int) - (loc.loc : Int))).length ≤ a.ops.length := by
      rw [hrl]; omega
    refine ⟨_, patch_loc_eq_some a loc target hsz h₁ h₂, rfl, rfl, ?_, ?_, ?_⟩
    · exact length_listWriteSlice hbound
    · intro i hi
      show (listWriteSlice a.ops (loc.loc - a.asmoffset - loc.size) _)[_]? = _
      rw [getElem?_listWriteSlice_mid (by rw [hrl]; exact hi) hbound]
      exact getElem?_leBytes _ hi
    · intro j hj
      show (listWriteSlice a.ops (loc.loc - a.asmoffset - loc.size) _)[j]? = _
      rcases hj with hj | hj
      · exact getElem?_listWriteSlice_lt (by omega) (by omega)
      · exact getElem?_listWriteSlice_ge (by rw [hrl]; omega) hbound
  · intro m loc target hsz h₁ h₂ h₃
    have hrl : (leBytes loc.size ((target : Int) - (loc.loc : Int))).length = loc.size :=
      leBytes_length _ _
    have hbound : (loc.loc - loc.size) +
        (leBytes loc.size ((target : Int) - (loc.loc : Int))).length ≤
          m.buffer.buffer.length := by
      rw [hrl]; omega
    have hsome : m.patch_loc loc target = some { m with
        buffer := { m.buffer with
          buffer := listWriteSlice m.buffer.buffer (loc.loc - loc.size)
            (leBytes loc.size ((target : Int) - (loc.loc : Int))) } } := by
      unfold AssemblyModifier.patch_loc
      rw [if_pos ⟨hsz, h₁, h₂, h₃⟩]
    refine ⟨_, hsome, rfl, rfl, ?_, ?_, ?_⟩
    · exact length_listWriteSlice hbound
    · intro i hi
      show (listWriteSlice m.buffer.buffer (loc.loc - loc.size) _)[_]? = _
      rw [getElem?_listWriteSlice_mid (by rw [hrl]; exact hi) hbound]
      exact getElem?_leBytes _ hi
    · intro j hj
      show (listWriteSlice m.buffer.buffer (loc.loc - loc.size) _)[j]? = _
      rcases hj with hj | hj
      · exact getElem?_listWriteSlice_lt (by omega) (by omega)
      · exact getElem?_listWriteSlice_ge (by rw [hrl]; omega) hbound

/-- Witness for C1: a one-byte patch of the scratch buffer at a concrete
assembler and a two-byte patch of the mapping at a concrete modifier. -/
theorem patch_resolution_writes_exact_field_witness :
    (examplePatch.asmoffset + 1 ≤ 2 ∧ 2 ≤ examplePatch.asmoffset + examplePatch.ops.length ∧
      ∃ a₂, examplePatch.patch_loc ⟨2, 1⟩ 7 = some a₂ ∧
        a₂.execbuffer = examplePatch.execbuffer ∧ a₂.asmoffset = examplePatch.asmoffset ∧
        a₂.ops.length = examplePatch.ops.length ∧
        (∀ i, i < 1 →
          a₂.ops[2 - examplePatch.asmoffset - 1 + i]? =
            some (leByte 1 ((7 : Int) - (2 : Int)) i)) ∧
        (∀ j, examplePatch.asmoffset + j + 1 < 2 ∨ 2 ≤ examplePatch.asmoffset + j →
          a₂.ops[j]? = examplePatch.ops[j]?)) ∧
    (2 ≤ 3 ∧ 3 ≤ exampleMod.buffer.length ∧
      exampleMod.buffer.length ≤ exampleMod.buffer.buffer.length ∧
      ∃ m₂, exampleMod.patch_loc ⟨3, 2⟩ 10 = some m₂ ∧
        m₂.assembler = exampleMod.assembler ∧ m₂.buffer.length = exampleMod.buffer.length ∧
        m₂.buffer.buffer.length = exampleMod.buffer.buffer.length ∧
        (∀ i, i < 2 →
          m₂.buffer.buffer[3 - 2 + i]? = some (leByte 2 ((10 : Int) - (3 : Int)) i)) ∧
        (∀ j, j + 2 < 3 ∨ 3 ≤ j →
          m₂.buffer.buffer[j]? = exampleMod.buffer.buffer[j]?)) :=
  ⟨⟨by decide, by decide,
    patch_resolution_writes_exact_field.1 examplePatch ⟨2, 1⟩ 7 (Or.inl rfl)
      (by decide) (by decide)⟩,
   ⟨by decide, by decide, by decide,
    patch_resolution_writes_exact_field.2 exampleMod ⟨3, 2⟩ 10 (Or.inr (Or.inl rfl))
      (by decide) (by decide) (by decide)⟩⟩

/-- Counterexample to claim C3: at `PatchLoc (2, 1)` with target 202 the
delta `200` does not fit sign-extended in one byte, yet `patch_loc` succeeds
(no `ImpossibleRelocation` exists in this code) and silently writes the
truncated byte `0xC8`. -/
theorem patch_loc_accepts_unfit_delta :
    sextTrunc 1 ((202 : Int) - (2 : Int)) ≠ (202 : Int) - (2 : Int) ∧
    examplePatch.patch_loc ⟨2, 1⟩ 202 =
      some { examplePatch with ops := [0, 200, 0] } := by
  exact ⟨by decide, by decide⟩

/-- Claim C3 as amended: resolving an in-range relocation never fails,
whether or not the delta fits; the field receives the delta truncated to
`size` bytes (equivalently, the encoding of the truncated-and-sign-extended
delta), so whenever the delta does fit the field holds exactly `D = T - end`. -/
theorem patch_loc_truncates_delta (a : Assembler) (loc : PatchLoc) (target : Nat)
    (hsz : loc.size = 1 ∨ loc.size = 2 ∨ loc.size = 4 ∨ loc.size = 8)
    (h₁ : a.asmoffset + loc.size ≤ loc.loc)
    (h₂ : loc.loc ≤ a.asmoffset + a.ops.length) :
    ∃ a₂, a.patch_loc loc target = some a₂ ∧
      (a₂.ops.drop (loc.loc - a.asmoffset - loc.size)).take loc.size =
        leBytes loc.size (sextTrunc loc.size ((target : Int) - (loc.loc : Int))) ∧
      (sextTrunc loc.size ((target : Int) - (loc.loc : Int)) =
          (target : Int) - (loc.loc : Int) →
        (a₂.ops.drop (loc.loc - a.asmoffset - loc.size)).take loc.size =
          leBytes loc.size ((target : Int) - (loc.loc : Int))) := by
  have hrl : (leBytes loc.size ((target : Int) - (loc.loc : Int))).length = loc.size :=
    leBytes_length _ _
  have hbound : (loc.loc - a.asmoffset - loc.size) +
      (leBytes loc.size ((target : Int) - (loc.loc : Int))).length ≤ a.ops.length := by
    rw [hrl]; omega
  refine ⟨_, patch_loc_eq_some a loc target hsz h₁ h₂, ?_, ?_⟩
  · show ((listWriteSlice a.ops (loc.loc - a.asmoffset - loc.size) _).drop _).take _ = _
    rw [drop_take_listWriteSlice_len hrl hbound, leBytes_sextTrunc]
  · intro _
    show ((listWriteSlice a.ops (loc.loc - a.asmoffset - loc.size) _).drop _).take _ = _
    rw [drop_take_listWriteSlice_len hrl hbound]

/-- Witness for the amended C3 at a concrete in-range one-byte patch whose
delta does not fit. -/
theorem patch_loc_truncates_delta_witness :
    examplePatch.asmoffset + 1 ≤ 2 ∧ 2 ≤ examplePatch.asmoffset + examplePatch.ops.length ∧
    ∃ a₂, examplePatch.patch_loc ⟨2, 1⟩ 202 = some a₂ ∧
      (a₂.ops.drop (2 - examplePatch.asmoffset - 1)).take 1 =
        leBytes 1 (sextTrunc 1 ((202 : Int) - (2 : Int))) ∧
      (sextTrunc 1 ((202 : Int) - (2 : Int)) = (202 : Int) - (2 : Int) →
        (a₂.ops.drop (2 - examplePatch.asmoffset - 1)).take 1 =
          leBytes 1 ((202 : Int) - (2 : Int))) :=
  ⟨by decide, by decide,
    patch_loc_truncates_delta examplePatch ⟨2, 1⟩ 202 (Or.inl rfl) (by decide) (by decide)⟩

/-- Counterexample to claim C4: committing with a global relocation whose
label is undefined fails, but the global relocation queue was swapped out of
the assembler before iteration, so it is empty afterwards instead of intact. -/
theorem commit_failure_drains_global_queue :
    (exampleBadReloc.commit).1 = some (DynasmError.unknownGlobalLabel "g") ∧
    (exampleBadReloc.commit).2.global_relocs = [] ∧
    exampleBadReloc.global_relocs ≠ [] := by
  exact ⟨by decide, by decide, by decide⟩

/-- Claim C4 as amended: when relocation resolution during a working commit
fails, the failure propagates as the fatal diagnostic of `encode_relocs`, and
the label tables (global, dynamic, local) together with the local forward
queue, the executable buffer and `asmoffset` are exactly as before the failed
commit; only the already-drained global/dynamic relocation queues (and
already-patched scratch bytes) may differ. -/
theorem commit_failure_preserves_label_tables
    (a : Assembler) (e : DynasmError) (a₂ : Assembler)
    (hops : a.ops ≠ [])
    (h : a.encode_relocs = (some e, a₂)) :
    a.commit = (some e, a₂) ∧
    a₂.global_labels = a.global_labels ∧ a₂.dynamic_labels = a.dynamic_labels ∧
    a₂.local_labels = a.local_labels ∧ a₂.local_relocs = a.local_relocs ∧
    a₂.execbuffer = a.execbuffer ∧ a₂.asmoffset = a.asmoffset := by
  obtain ⟨heb, hml, hao, hol, hgl, hdl, hll, hlr⟩ := encode_relocs_pres h
  refine ⟨?_, hgl, hdl, hll, hlr, heb, hao⟩
  have hne : ¬(a.asmoffset = a.ops.length + a.asmoffset) := by
    intro heq
    exact hops (List.eq_nil_of_length_eq_zero (by omega))
  simp only [Assembler.commit]
  rw [if_neg hne, h]

/-- Witness for the amended C4 at a concrete assembler with an unresolvable
global relocation. -/
theorem commit_failure_preserves_label_tables_witness :
    exampleBadReloc.ops ≠ [] ∧
    exampleBadReloc.encode_relocs = (some (DynasmError.unknownGlobalLabel "g"),
      { exampleBadReloc with global_relocs := [] }) ∧
    (exampleBadReloc.commit = (some (DynasmError.unknownGlobalLabel "g"),
      { exampleBadReloc with global_relocs := [] }) ∧
     ({ exampleBadReloc with global_relocs := [] } : Assembler).global_labels =
       exampleBadReloc.global_labels ∧
     ({ exampleBadReloc with global_relocs := [] } : Assembler).dynamic_labels =
       exampleBadReloc.dynamic_labels ∧
     ({ exampleBadReloc with global_relocs := [] } : Assembler).local_labels =
       exampleBadReloc.local_labels ∧
     ({ exampleBadReloc with global_relocs := [] } : Assembler).local_relocs =
       exampleBadReloc.local_relocs ∧
     ({ exampleBadReloc with global_relocs := [] } : Assembler).execbuffer =
       exampleBadReloc.execbuffer ∧
     ({ exampleBadReloc with global_relocs := [] } : Assembler).asmoffset =
       exampleBadReloc.asmoffset) :=
  ⟨by decide, by decide,
    commit_failure_preserves_label_tables exampleBadReloc
      (DynasmError.unknownGlobalLabel "g") _ (by decide) (by decide)⟩

/-- Claim C5: a working commit with `buf_end > map_len` allocates a new
mapping of size `max(buf_end, 2 * map_len)`, copies `[0, buf_start)` from the
old mapping and the (relocation-resolved) scratch bytes into
`[buf_start, buf_end)`, sets the published length to `buf_end`, and leaves
every byte of `[0, old_length)` bit-identical to its pre-commit value (the
hypothesis `old_length = asmoffset` is the standing invariant outside
`alter`). -/
theorem commit_growth_path
    (a a₁ a₂ : Assembler)
    (hops : a.ops ≠ [])
    (hinv : a.execbuffer.length = a.asmoffset)
    (hgrow : a.ops.length + a.asmoffset > a.map_len)
    (henc : a.encode_relocs = (none, a₁))
    (h : a.commit = (none, a₂)) :
    a₂.map_len = max (a.ops.length + a.asmoffset) (a.map_len * 2) ∧
    a₂.execbuffer.buffer.length = max (a.ops.length + a.asmoffset) (a.map_len * 2) ∧
    a₂.execbuffer.length = a.ops.length + a.asmoffset ∧
    (∀ j, j < a.asmoffset → a₂.execbuffer.buffer[j]? = a.execbuffer.buffer[j]?) ∧
    (∀ i, i < a₁.ops.length →
      a₂.execbuffer.buffer[a.asmoffset + i]? = a₁.ops[i]?) ∧
    (∀ j, j < a.execbuffer.length →
      a₂.execbuffer.buffer[j]? = a.execbuffer.buffer[j]?) := by
  obtain ⟨heb, hml, hao, hol, _, _, _, _⟩ := encode_relocs_pres henc
  have hne : ¬(a.asmoffset = a.ops.length + a.asmoffset) := by
    intro heq
    exact hops (List.eq_nil_of_length_eq_zero (by omega))
  simp only [Assembler.commit] at h
  rw [if_neg hne] at h
  split at h
  case h_1 e b heq =>
    rw [henc] at heq
    exact absurd heq (by simp)
  case h_2 b heq =>
    rw [henc] at heq
    injection heq with he hb
    subst hb
    rw [if_pos (by omega : a.ops.length + a.asmoffset > a₁.map_len)] at h
    split at h
    case isFalse => injection h with h₁ h₂; exact absurd h₁ (by simp)
    case isTrue hok =>
      obtain ⟨hbs, hopslen⟩ := hok
      injection h with h₁ h₂
      subst h₂
      have hBE : a.ops.length + a.asmoffset ≤
          max (a.ops.length + a.asmoffset) (a₁.map_len * 2) := Nat.le_max_left _ _
      have hrep : (List.replicate (max (a.ops.length + a.asmoffset) (a₁.map_len * 2))
          (0 : Nat)).length = max (a.ops.length + a.asmoffset) (a₁.map_len * 2) :=
        List.length_replicate _ _
      have htk : (a₁.execbuffer.buffer.take a.asmoffset).length = a.asmoffset := by
        simp only [List.length_take]
        omega
      have hL1 : (listWriteSlice
          (List.replicate (max (a.ops.length + a.asmoffset) (a₁.map_len * 2)) 0) 0
          (a₁.execbuffer.buffer.take a.asmoffset)).length =
          max (a.ops.length + a.asmoffset) (a₁.map_len * 2) := by
        rw [length_listWriteSlice (by rw [hrep, htk]; omega), hrep]
      have hmid₀ : ∀ j, j < a.asmoffset →
          (listWriteSlice
            (List.replicate (max (a.ops.length + a.asmoffset) (a₁.map_len * 2)) 0) 0
            (a₁.execbuffer.buffer.take a.asmoffset))[j]? =
          (a₁.execbuffer.buffer.take a.asmoffset)[j]? := by
        intro j hj
        have := @getElem?_listWriteSlice_mid
            (List.replicate (max (a.ops.length + a.asmoffset) (a₁.map_len * 2)) 0)
            (a₁.execbuffer.buffer.take a.asmoffset) 0 j
            (by rw [htk]; exact hj) (by rw [hrep, htk]; omega)
        simpa using this
      have hpre : ∀ j, j < a.asmoffset →
          (listWriteSlice (listWriteSlice
            (List.replicate (max (a.ops.length + a.asmoffset) (a₁.map_len * 2)) 0) 0
            (a₁.execbuffer.buffer.take a.asmoffset)) a.asmoffset a₁.ops)[j]? =
          a.execbuffer.buffer[j]? := by
        intro j hj
        rw [getElem?_listWriteSlice_lt hj (by rw [hL1]; omega), hmid₀ j hj,
          List.getElem?_take_of_lt hj, heb]
      refine ⟨?_, ?_, rfl, hpre, ?_, ?_⟩
      · show max (a.ops.length + a.asmoffset) (a₁.map_len * 2) = _
        rw [hml]
      · show (listWriteSlice _ a.asmoffset a₁.ops).length = _
        rw [length_listWriteSlice (by rw [hL1]; omega), hL1, hml]
      · intro i hi
        show (listWriteSlice _ a.asmoffset a₁.ops)[a.asmoffset + i]? = _
        rw [getElem?_listWriteSlice_mid hi (by rw [hL1]; omega)]
      · intro j hj
        exact hpre j (by omega)

/-- Witness for C5 at a concrete assembler whose three staged bytes overflow
its four-byte mapping. -/
theorem commit_growth_path_witness :
    exampleGrow.ops ≠ [] ∧
    exampleGrow.execbuffer.length = exampleGrow.asmoffset ∧
    exampleGrow.ops.length + exampleGrow.asmoffset > exampleGrow.map_len ∧
    exampleGrow.encode_relocs = (none, exampleGrow) ∧
    exampleGrow.commit = (none, { exampleGrow with
      execbuffer := { length := 5, buffer := [7, 7, 9, 9, 9, 0, 0, 0] }
      map_len := 8
      ops := []
      asmoffset := 5 }) ∧
    (({ exampleGrow with
        execbuffer := { length := 5, buffer := [7, 7, 9, 9, 9, 0, 0, 0] }
        map_len := 8
        ops := []
        asmoffset := 5 } : Assembler).map_len =
      max (exampleGrow.ops.length + exampleGrow.asmoffset) (exampleGrow.map_len * 2) ∧
     ({ exampleGrow with
        execbuffer := { length := 5, buffer := [7, 7, 9, 9, 9, 0, 0, 0] }
        map_len := 8
        ops := []
        asmoffset := 5 } : Assembler).execbuffer.buffer.length =
      max (exampleGrow.ops.length + exampleGrow.asmoffset) (exampleGrow.map_len * 2) ∧
     ({ exampleGrow with
        execbuffer := { length := 5, buffer := [7, 7, 9, 9, 9, 0, 0, 0] }
        map_len := 8
        ops := []
        asmoffset := 5 } : Assembler).execbuffer.length =
      exampleGrow.ops.length + exampleGrow.asmoffset ∧
     (∀ j, j < exampleGrow.asmoffset →
       ({ exampleGrow with
          execbuffer := { length := 5, buffer := [7, 7, 9, 9, 9, 0, 0, 0] }
          map_len := 8
          ops := []
          asmoffset := 5 } : Assembler).execbuffer.buffer[j]? =
       exampleGrow.execbuffer.buffer[j]?) ∧
     (∀ i, i < exampleGrow.ops.length →
       ({ exampleGrow with
          execbuffer := { length := 5, buffer := [7, 7, 9, 9, 9, 0, 0, 0] }
          map_len := 8
          ops := []
          asmoffset := 5 } : Assembler).execbuffer.buffer[exampleGrow.asmoffset + i]? =
       exampleGrow.ops[i]?) ∧
     (∀ j, j < exampleGrow.execbuffer.length →
       ({ exampleGrow with
          execbuffer := { length := 5, buffer := [7, 7, 9, 9, 9, 0, 0, 0] }
          map_len := 8
          ops := []
          asmoffset := 5 } : Assembler).execbuffer.buffer[j]? =
       exampleGrow.execbuffer.buffer[j]?)) :=
  ⟨by decide, by decide, by decide, by decide, by decide,
    commit_growth_path exampleGrow exampleGrow _ (by decide) (by decide) (by decide)
      (by decide) (by decide)⟩

theorem commit_fastpath_eq (a a₁ : Assembler)
    (hops : a.ops ≠ [])
    (henc : a.encode_relocs = (none, a₁))
    (hle : a.ops.length + a.asmoffset ≤ a₁.map_len)
    (hbuf : a.ops.length + a.asmoffset ≤ a₁.execbuffer.buffer.length) :
    a.commit = (none, { a₁ with
      execbuffer := { length := if a.ops.length + a.asmoffset > a₁.execbuffer.length
                        then a.ops.length + a.asmoffset else a₁.execbuffer.length
                      buffer := listWriteSlice a₁.execbuffer.buffer a.asmoffset a₁.ops }
      ops := []
      asmoffset := a.ops.length + a.asmoffset }) := by
  have hol : a₁.ops.length = a.ops.length := (encode_relocs_pres henc).2.2.2.1
  have hao : a₁.asmoffset = a.asmoffset := (encode_relocs_pres henc).2.2.1
  have hne : ¬(a.asmoffset = a.ops.length + a.asmoffset) := by
    intro heq
    exact hops (List.eq_nil_of_length_eq_zero (by omega))
  simp only [Assembler.commit]
  rw [if_neg hne]
  split
  case h_1 e b heq =>
    rw [henc] at heq
    exact absurd heq (by simp)
  case h_2 b heq =>
    rw [henc] at heq
    injection heq with he hb
    subst hb
    rw [if_neg (by omega : ¬ (a.ops.length + a.asmoffset > a₁.map_len))]
    rw [if_pos ⟨hbuf, by omega⟩]

/-- Counterexample to claim C7: the literal sequence push `0xEB`;
`forward_reloc("l", 1)`; push `0x90` three times; `local_label("l")`;
`commit` emits only four bytes, and the patch (whose field ends at offset 1)
overwrites the `0xEB` opcode itself, so the committed buffer is
`03 90 90 90`, not `EB 03 90 90 90`. -/
theorem take_listWriteSlice_zero (l repl : List Nat) :
    (listWriteSlice l 0 repl).take repl.length = repl := by
  simp only [listWriteSlice, List.take_zero, List.nil_append, Nat.zero_add]
  exact List.take_left repl _

theorem forward_jump_scenario_literal :
    forwardJumpLiteral.1 = none ∧
    forwardJumpLiteral.2.execbuffer.contents = [0x03, 0x90, 0x90, 0x90] ∧
    forwardJumpLiteral.2.execbuffer.contents ≠ [0xEB, 0x03, 0x90, 0x90, 0x90] := by
  have happly := commit_fastpath_eq forwardJumpPre forwardJumpPre
    (by decide)
    (by rfl)
    (by decide)
    (by
      have hb : forwardJumpPre.execbuffer.buffer = List.replicate MMAP_INIT_SIZE 0 := rfl
      rw [hb, List.length_replicate]
      decide)
  have hFL : forwardJumpLiteral = forwardJumpPre.commit := by rfl
  have hcont : (forwardJumpPre.commit).2.execbuffer.contents = [0x03, 0x90, 0x90, 0x90] := by
    rw [happly]
    show (listWriteSlice (List.replicate MMAP_INIT_SIZE 0) 0
      [0x03, 0x90, 0x90, 0x90]).take 4 = [0x03, 0x90, 0x90, 0x90]
    exact take_listWriteSlice_zero (List.replicate MMAP_INIT_SIZE 0) [0x03, 0x90, 0x90, 0x90]
  refine ⟨?_, ?_, ?_⟩
  · rw [hFL, happly]
  · rw [hFL]
    exact hcont
  · rw [hFL, hcont]
    decide

/-- Claim C7 as amended: with the one-byte immediate field actually emitted
(push `0xEB`; push a placeholder; `forward_reloc("l", 1)`; push `0x90` three
times; `local_label("l")`; `commit`) the committed buffer contents are
exactly `EB 03 90 90 90`. -/
theorem forward_jump_scenario_with_placeholder :
    forwardJumpAmended.1 = none ∧
    forwardJumpAmended.2.execbuffer.contents = [0xEB, 0x03, 0x90, 0x90, 0x90] := by
  have happly := commit_fastpath_eq forwardJumpAmendedPre forwardJumpAmendedPre
    (by decide)
    (by rfl)
    (by decide)
    (by
      have hb : forwardJumpAmendedPre.execbuffer.buffer = List.replicate MMAP_INIT_SIZE 0 := rfl
      rw [hb, List.length_replicate]
      decide)
  have hFA : forwardJumpAmended = forwardJumpAmendedPre.commit := by rfl
  refine ⟨?_, ?_⟩
  · rw [hFA, happly]
  · rw [hFA, happly]
    show (listWriteSlice (List.replicate MMAP_INIT_SIZE 0) 0
      [0xEB, 0x03, 0x90, 0x90, 0x90]).take 5 = [0xEB, 0x03, 0x90, 0x90, 0x90]
    exact take_listWriteSlice_zero (List.replicate MMAP_INIT_SIZE 0)
      [0xEB, 0x03, 0x90, 0x90, 0x90]

/-- Claim C8 is contradicted by `AssemblyModifier::align`: at a modifier
positioned at offset 1 of a four-byte mapping, `align(4)` appends its three
`0x90` padding bytes to the assembler's scratch buffer `ops` and leaves both
the mapping and `asmoffset` untouched (it delegates to `Assembler::align`,
contradicting the modifier's documented direct-write behaviour), whereas
`push` does write the mapping at `asmoffset` and advance it without touching
`ops`. -/
theorem modifier_align_pushes_into_scratch :
    exampleMod.align 4 = some { exampleMod with
      assembler := { exampleMod.assembler with ops := [0x90, 0x90, 0x90] } } ∧
    exampleMod.push 0xAA = some { exampleMod with
      buffer := { exampleMod.buffer with buffer := [1, 0xAA, 3, 4] }
      assembler := { exampleMod.assembler with asmoffset := 2 } } := by
  exact ⟨by decide, by decide⟩

end Dynasm
